import Mathlib

/-!
Verification of the change-detection and delivery pipeline of the
`trumpnews` bot (src/bot.js, the multi-webhook variant with Gemini
translation, lines 313-1206 of the concatenated source).

JavaScript strings are modelled as `List Char` (one entry per code unit);
all string-manipulating functions of the source (`trim`, `substring`,
`lastIndexOf`, template literals, truthiness) are given explicit models
below.  `crypto.createHash('sha256')...digest('hex')` is modelled by a
complete SHA-256 implementation over `Nat`.
-/

/-- A JavaScript string: a list of characters. -/
abbrev JStr := List Char

/-- Embed a Lean string literal as a `JStr`. -/
def js (s : String) : JStr := s.data

/-- The whitespace characters removed by `String.prototype.trim`
(ASCII subset; the inputs of this program contain no exotic spaces). -/
def isJsWs (c : Char) : Bool :=
  c = ' ' || c = '\n' || c = '\t' || c = '\r' ||
  c.toNat = 11 || c.toNat = 12

/-- Remove leading JS whitespace. -/
def jsTrimLeft (s : JStr) : JStr := s.dropWhile isJsWs

/-- Remove trailing JS whitespace. -/
def jsTrimRight (s : JStr) : JStr := (s.reverse.dropWhile isJsWs).reverse

/-- `String.prototype.trim`. -/
def jsTrim (s : JStr) : JStr := jsTrimLeft (jsTrimRight s)

/-- JS template-literal interpolation of a string-or-`undefined` value:
`undefined` renders as the literal text `undefined`. -/
def jsTemplate (v : Option JStr) : JStr :=
  match v with
  | some s => s
  | none => js ("undefined")

/-- JS truthiness of a string-or-`undefined` value: only a non-empty
string is truthy. -/
def jsTruthy (v : Option JStr) : Bool :=
  match v with
  | some s => !s.isEmpty
  | none => false

/-- `String(v ?? '')` as used by `esc` in `formatMessage`: `undefined`
becomes the empty string. -/
def jsCoalesce (v : Option JStr) : JStr := v.getD []

/-! ## SHA-256 over `Nat` (crypto.createHash('sha256')) -/

/-- Truncate to a 32-bit word. -/
def w32 (x : Nat) : Nat := x % 4294967296

/-- 32-bit rotate right by `n` (for `x < 2^32`, `0 < n < 32`). -/
def rotr32 (n x : Nat) : Nat := x / 2 ^ n + x % 2 ^ n * 2 ^ (32 - n)

/-- 32-bit logical shift right. -/
def shr32 (n x : Nat) : Nat := x / 2 ^ n

/-- Three-way xor. -/
def xor3 (a b c : Nat) : Nat := (a ^^^ b) ^^^ c

def capSigma0 (x : Nat) : Nat := xor3 (rotr32 2 x) (rotr32 13 x) (rotr32 22 x)

def capSigma1 (x : Nat) : Nat := xor3 (rotr32 6 x) (rotr32 11 x) (rotr32 25 x)

def lowSigma0 (x : Nat) : Nat := xor3 (rotr32 7 x) (rotr32 18 x) (shr32 3 x)

def lowSigma1 (x : Nat) : Nat := xor3 (rotr32 17 x) (rotr32 19 x) (shr32 10 x)

def chFn (x y z : Nat) : Nat := (x &&& y) ^^^ ((x ^^^ 4294967295) &&& z)

def majFn (x y z : Nat) : Nat := xor3 (x &&& y) (x &&& z) (y &&& z)

/-- The 64 SHA-256 round constants (FIPS 180-4). -/
def sha256K : List Nat :=
  [1116352408, 1899447441, 3049323471, 3921009573, 961987163,
   1508970993, 2453635748, 2870763221, 3624381080, 310598401,
   607225278, 1426881987, 1925078388, 2162078206, 2614888103,
   3248222580, 3835390401, 4022224774, 264347078, 604807628,
   770255983, 1249150122, 1555081692, 1996064986, 2554220882,
   2821834349, 2952996808, 3210313671, 3336571891, 3584528711,
   113926993, 338241895, 666307205, 773529912, 1294757372,
   1396182291, 1695183700, 1986661051, 2177026350, 2456956037,
   2730485921, 2820302411, 3259730800, 3345764771, 3516065817,
   3600352804, 4094571909, 275423344, 430227734, 506948616,
   659060556, 883997877, 958139571, 1322822218, 1537002063,
   1747873779, 1955562222, 2024104815, 2227730452, 2361852424,
   2428436474, 2756734187, 3204031479, 3329325298]

/-- The initial SHA-256 hash value (FIPS 180-4). -/
def sha256Init : List Nat :=
  [1779033703, 3144134277, 1013904242, 2773480762, 1359893119,
   2600822924, 528734635, 1541459225]

/-- Big-endian 32-bit word from 4 bytes. -/
def beWord (b0 b1 b2 b3 : Nat) : Nat := ((b0 * 256 + b1) * 256 + b2) * 256 + b3

/-- Parse a byte list into big-endian 32-bit words. -/
def toWords : List Nat → List Nat
  | b0 :: b1 :: b2 :: b3 :: rest => beWord b0 b1 b2 b3 :: toWords rest
  | _ => []

/-- Extend a 16-word block to the 64-word message schedule
(`fuel` additional words). -/
def extendW (w : Array Nat) : Nat → Array Nat
  | 0 => w
  | f + 1 =>
    let i := w.size
    let x := w32 (lowSigma1 (w.getD (i - 2) 0) + w.getD (i - 7) 0 +
                  lowSigma0 (w.getD (i - 15) 0) + w.getD (i - 16) 0)
    extendW (w.push x) f

/-- One SHA-256 round: state `[a,b,c,d,e,f,g,h]`, input `(kᵢ, wᵢ)`. -/
def roundFn (st : List Nat) (kw : Nat × Nat) : List Nat :=
  match st with
  | [a, b, c, d, e, f, g, h] =>
    let t1 := w32 (h + capSigma1 e + chFn e f g + kw.1 + kw.2)
    let t2 := w32 (capSigma0 a + majFn a b c)
    [w32 (t1 + t2), a, b, c, w32 (d + t1), e, f, g]
  | other => other

/-- Compress one 16-word block into the running hash. -/
def compressBlock (h : List Nat) (block : List Nat) : List Nat :=
  let w := (extendW (Array.mk block) 48).toList
  let st := (sha256K.zip w).foldl roundFn h
  (h.zip st).map (fun p => w32 (p.1 + p.2))

/-- Big-endian 8-byte encoding of a length in bits. -/
def be64 (n : Nat) : List Nat :=
  [n / 2 ^ 56 % 256, n / 2 ^ 48 % 256, n / 2 ^ 40 % 256, n / 2 ^ 32 % 256,
   n / 2 ^ 24 % 256, n / 2 ^ 16 % 256, n / 2 ^ 8 % 256, n % 256]

/-- SHA-256 padding: append `0x80`, zeros to 56 mod 64, and the bit length. -/
def sha256Pad (msg : List Nat) : List Nat :=
  let len := msg.length
  msg ++ 128 :: (List.replicate ((119 - len % 64) % 64) 0 ++ be64 (8 * len))

/-- Split a byte list into 16-word blocks (`fuel ≥ length`). -/
def blocksOf : Nat → List Nat → List (List Nat)
  | 0, _ => []
  | _, [] => []
  | f + 1, bytes => toWords (bytes.take 64) :: blocksOf f (bytes.drop 64)

/-- SHA-256 of a byte list, as eight 32-bit words. -/
def sha256Words (msg : List Nat) : List Nat :=
  let padded := sha256Pad msg
  (blocksOf padded.length padded).foldl compressBlock sha256Init

/-- Lowercase hex digit. -/
def hexDigit (n : Nat) : Char :=
  if n < 10 then Char.ofNat (48 + n) else Char.ofNat (87 + n)

/-- Fixed-width lowercase hex rendering. -/
def hexN : Nat → Nat → List Char
  | 0, _ => []
  | d + 1, v => hexDigit (v / 16 ^ d % 16) :: hexN d v

/-- UTF-8 bytes of one character (as used by `hash.update(raw)`). -/
def utf8Encode (c : Char) : List Nat :=
  let n := c.toNat
  if n < 128 then [n]
  else if n < 2048 then [192 + n / 64, 128 + n % 64]
  else if n < 65536 then [224 + n / 4096, 128 + n / 64 % 64, 128 + n % 64]
  else [240 + n / 262144, 128 + n / 4096 % 64, 128 + n / 64 % 64, 128 + n % 64]

/-- UTF-8 bytes of a string. -/
def utf8Bytes (s : JStr) : List Nat := (s.map utf8Encode).flatten

/-- `crypto.createHash('sha256').update(s).digest('hex')`. -/
def sha256Hex (s : JStr) : JStr :=
  ((sha256Words (utf8Bytes s)).map (hexN 8)).flatten

/-! ## RawRecord and the Identity Hasher (createMessageId, bot.js 576-580) -/

/-- One scraped news entry, as produced by `extractAllCurrentlyLoadedRows`.
Fields are JS values that may be `undefined` (`none`); `tickers` is either
an array of strings or `undefined`. -/
structure Item where
  time : Option JStr
  sentiment : Option JStr
  fullTweet : Option JStr
  summary : Option JStr
  tickers : Option (List JStr)
  sector : Option JStr
deriving Repr, DecidableEq

/-- `Array.isArray(item.tickers) ? item.tickers.join(',') : ''`. -/
def tickersKey (t : Option (List JStr)) : JStr :=
  match t with
  | some l => List.intercalate (js (",")) l
  | none => []

/-- The canonical `|`-joined concatenation hashed by `createMessageId`:
`` `${item.time}|${item.sentiment}|${item.fullTweet}|${item.summary}|${tickersKey}|${item.sector}` ``. -/
def rawConcat (it : Item) : JStr :=
  jsTemplate it.time ++ js ("|") ++ jsTemplate it.sentiment ++ js ("|") ++
  jsTemplate it.fullTweet ++ js ("|") ++ jsTemplate it.summary ++ js ("|") ++
  tickersKey it.tickers ++ js ("|") ++ jsTemplate it.sector

/-- `createMessageId` (bot.js 576-580): hex SHA-256 digest of the canonical
field concatenation. -/
def createMessageId (it : Item) : JStr := sha256Hex (rawConcat it)

/-! ## splitIntoChunks (bot.js 630-662) -/

/-- `String.prototype.lastIndexOf(ch, fromIdx)`: the largest index
`i ≤ fromIdx` holding `ch`, scanning downward; `none` plays `-1`. -/
def jsLastIndexOf (ch : Char) (s : JStr) : Nat → Option Nat
  | 0 => if s.get? 0 = some ch then some 0 else none
  | k + 1 => if s.get? (k + 1) = some ch then some (k + 1) else jsLastIndexOf ch s k

/-- The space-or-hard-split fallback of `splitIntoChunks`: split after the
last space when it lies past 70% of the ceiling, else split at the ceiling.
The JS comparison `lastSpace > maxLength * 0.7` is `7 * maxLength < 10 * j`
here; at the only ceiling used by this program, `1990 * 0.7` is exactly the
double `1393`, so the two conditions agree. -/
def pickSpace (maxLength : Nat) (remaining : JStr) : Nat :=
  match jsLastIndexOf ' ' remaining maxLength with
  | some j => if 7 * maxLength < 10 * j then j + 1 else maxLength
  | none => maxLength

/-- The split position chosen by one iteration of `splitIntoChunks`:
after the last newline when it lies past 70% of the ceiling, else the
space/hard fallback. -/
def pickSplitIndex (maxLength : Nat) (remaining : JStr) : Nat :=
  match jsLastIndexOf '\n' remaining maxLength with
  | some i => if 7 * maxLength < 10 * i then i + 1 else pickSpace maxLength remaining
  | none => pickSpace maxLength remaining

/-- The `while (remaining.length > 0)` loop of `splitIntoChunks`, with
explicit fuel (each iteration shortens `remaining` by at least one
character whenever `1 ≤ maxLength`, so `remaining.length` fuel suffices). -/
def splitLoop (maxLength : Nat) : Nat → JStr → List JStr
  | 0, _ => []
  | fuel + 1, remaining =>
    if remaining.isEmpty then []
    else if remaining.length ≤ maxLength then [remaining]
    else
      let splitIndex := pickSplitIndex maxLength remaining
      jsTrim (remaining.take splitIndex) ::
        splitLoop maxLength fuel (jsTrim (remaining.drop splitIndex))

/-- `splitIntoChunks` (bot.js 630-662). -/
def splitIntoChunks (text : JStr) (maxLength : Nat) : List JStr :=
  if text.length ≤ maxLength then [text] else splitLoop maxLength text.length text

/-! ## formatMessage (bot.js 666-716) and buildTradingViewLinks (607-627) -/

/-- `esc`: `String(s ?? '').trim()`. -/
def esc (v : Option JStr) : JStr := jsTrim (jsCoalesce v)

/-- `x || d` for strings: the default kicks in on the empty string. -/
def jsOrElse (x d : JStr) : JStr := if x.isEmpty then d else x

/-- Uppercasing as `String.prototype.toUpperCase` on the ASCII symbols
this program handles. -/
def jsToUpper (s : JStr) : JStr := s.map Char.toUpper

/-- One character of the ticker-symbol alphabet `[A-Z0-9.\-]`. -/
def isTickerChar (c : Char) : Bool :=
  ('A' ≤ c && c ≤ 'Z') || c.isDigit || c = '.' || c = '-'

/-- `/^[A-Z0-9.\-]{1,12}$/.test sym`. -/
def validTicker (sym : JStr) : Bool :=
  1 ≤ sym.length && sym.length ≤ 12 && sym.all isTickerChar

/-- A character `encodeURIComponent` leaves unescaped. -/
def isUriUnreserved (c : Char) : Bool :=
  c.isAlphanum || c = '-' || c = '_' || c = '.' || c = '!' || c = '~' ||
  c = '*' || c.toNat = 39 || c = '(' || c = ')'

/-- `encodeURIComponent`: percent-encode the UTF-8 bytes of every
reserved character, uppercase hex. -/
def encodeURIComponent (s : JStr) : JStr :=
  (s.map (fun c =>
    if isUriUnreserved c then [c]
    else ((utf8Encode c).map (fun b =>
      ['%', (js ("0123456789ABCDEF")).getD (b / 16) 'X',
            (js ("0123456789ABCDEF")).getD (b % 16) 'X'])).flatten)).flatten

/-- The cleaning loop of `buildTradingViewLinks`: trim + uppercase each
candidate, keep the valid symbols, de-duplicate preserving first
occurrence (`seen` accumulates the symbols already taken). -/
def cleanTickers : List JStr → List JStr → List JStr
  | [], _ => []
  | t :: rest, seen =>
    let sym := jsToUpper (jsTrim t)
    if sym.isEmpty then cleanTickers rest seen
    else if !validTicker sym then cleanTickers rest seen
    else if seen.contains sym then cleanTickers rest seen
    else sym :: cleanTickers rest (sym :: seen)

/-- Render one symbol as a clickable TradingView chart link. -/
def tickerLink (sym : JStr) : JStr :=
  js ("[$") ++ sym ++ js ("](<https://www.tradingview.com/chart/?symbol=") ++
  encodeURIComponent sym ++ js (">)")

/-- `buildTradingViewLinks` (bot.js 607-627). -/
def buildTradingViewLinks (tickers : Option (List JStr)) : JStr :=
  match tickers with
  | none => js ("—")
  | some l =>
    if l.isEmpty then js ("—")
    else
      let cleaned := cleanTickers l []
      if cleaned.isEmpty then js ("—")
      else List.intercalate (js (", ")) (cleaned.map tickerLink)

/-- Substring containment for lists. -/
def containsSub (pat : JStr) : JStr → Bool
  | [] => pat.isEmpty
  | c :: rest => pat.isPrefixOf (c :: rest) || containsSub pat rest

/-- Case-insensitive substring test, modelling `/pat/i.test(s)`. -/
def testCI (pat s : JStr) : Bool :=
  containsSub (pat.map Char.toLower) (s.map Char.toLower)

/-- The sentiment emoji cascade of `formatMessage`. -/
def sentimentEmoji (sentiment : JStr) : JStr :=
  if testCI (js ("bullish")) sentiment then js ("🟢")
  else if testCI (js ("bearish")) sentiment then js ("🔴")
  else if testCI (js ("neutral")) sentiment then js ("⚪")
  else js ("🟦")

/-- Static configuration read from the environment: dashboard URL, tag
suffix, the (exactly three) webhook URLs and the item cap. -/
structure Config where
  siteUrl : JStr
  tag : JStr
  webhookUrls : List JStr
  maxMessages : Nat
deriving Repr, DecidableEq

/-- `fullTweetRaw && fullTweetRaw !== '00' ? fullTweetRaw : ''`: the
full-tweet text placed after the `💬 ` marker, with the `00` scraping
artefact blanked. -/
def fullTweetShown (v : Option JStr) : JStr :=
  if !(esc v).isEmpty && esc v ≠ js ("00") then esc v else []

/-- The `lines` array composed by `formatMessage` before joining:
conditional ticker-links line, conditional sector line, a blank line
when either was present, then header, summary, blank, full-tweet line
(`💬 ` plus possibly empty text), blank, and the source link. -/
def formatLines (cfg : Config) (item : Item) : List JStr :=
  let time := jsOrElse (esc item.time) (js ("N/A"))
  let sentiment := jsOrElse (esc item.sentiment) (js ("N/A"))
  let summary := jsOrElse (esc item.summary) (js ("N/A"))
  let fullTweet := fullTweetShown item.fullTweet
  let sector := esc item.sector
  let tickersLinks := buildTradingViewLinks item.tickers
  let pre :=
    (if !tickersLinks.isEmpty && tickersLinks ≠ js ("—") then [tickersLinks] else []) ++
    (if !sector.isEmpty && sector ≠ js ("—") then [js ("**Sector:** ") ++ sector] else [])
  let pre2 := if pre.isEmpty then pre else pre ++ [[]]
  pre2 ++
    [js ("`") ++ time ++ js ("` (") ++ sentimentEmoji sentiment ++ js (" **") ++
       sentiment ++ js ("**)"),
     summary,
     [],
     js ("💬 ") ++ fullTweet,
     [],
     js ("<") ++ cfg.siteUrl ++ js (">")]

/-- `[baseMessage, tag].filter(Boolean).join('\n')`. -/
def finalMessage (cfg : Config) (item : Item) : JStr :=
  List.intercalate (js ("\n"))
    (([List.intercalate (js ("\n")) (formatLines cfg item), cfg.tag]).filter
      (fun s => !s.isEmpty))

/-- `formatMessage` (bot.js 666-716): the composed message split into
chunks of at most 1990 characters. -/
def formatMessage (cfg : Config) (item : Item) : List JStr :=
  splitIntoChunks (finalMessage cfg item) 1990

/-! ## Delivery Engine: sendDiscordMessage (bot.js 582-605) -/

/-- One HTTP response from a webhook sink.  `retryAfter` is the
`retry_after` number parsed from the JSON body: `none` models an
absent/unparseable body (and `some 0` a zero), both of which fall back
to 1 second through `Number(body.retry_after) || 1`. -/
structure HttpResponse where
  status : Nat
  retryAfter : Option Nat
  bodyText : JStr
deriving Repr, DecidableEq

/-- `response.ok`: status in the 2xx range. -/
def respOk (r : HttpResponse) : Bool := 200 ≤ r.status && r.status ≤ 299

/-- `Math.ceil((Number(body.retry_after) || 1) * 1000)`. -/
def retryAfterMs (r : HttpResponse) : Nat :=
  match r.retryAfter with
  | some n => if n = 0 then 1000 else n * 1000
  | none => 1000

/-- The observable outcome of `sendDiscordMessage`: success after a list
of back-off sleeps (milliseconds), or the fatal non-429 error. -/
inductive SendOutcome where
  | success (delays : List Nat)
  | fatal (status : Nat) (body : JStr)
deriving Repr, DecidableEq

/-- `sendDiscordMessage` (bot.js 582-605) driven by the sink's response
sequence; `none` means the response list ran out while the unbounded
429 retry loop was still going. -/
def sendDiscordMessage : List HttpResponse → Option SendOutcome
  | [] => none
  | r :: rest =>
    if respOk r then some (.success [])
    else if r.status = 429 then
      match sendDiscordMessage rest with
      | some (.success ds) => some (.success ((retryAfterMs r + 250) :: ds))
      | other => other
    else some (.fatal r.status r.bodyText)

/-- Prepend `k` identical 429 back-off delays to a send outcome. -/
def addDelays (k d : Nat) (o : Option SendOutcome) : Option SendOutcome :=
  match o with
  | some (.success ds) => some (.success (List.replicate k d ++ ds))
  | other => other

/-! ## Credential rotation (bot.js 393-458) -/

/-- The mutable rotation state: the cycling cursor `currentKeyIndex` and
the `rateLimitedKeys` map (key index → `Date.now()` when limited). -/
structure KeyState where
  cur : Nat
  limited : List (Nat × Int)
deriving Repr, DecidableEq

/-- `Map.prototype.get`. -/
def mapLookup (k : Nat) : List (Nat × Int) → Option Int
  | [] => none
  | (k', v) :: rest => if k' = k then some v else mapLookup k rest

/-- `Map.prototype.set` (insertion order preserved on update). -/
def mapSet (k : Nat) (v : Int) : List (Nat × Int) → List (Nat × Int)
  | [] => [(k, v)]
  | (k', v') :: rest => if k' = k then (k, v) :: rest else (k', v') :: mapSet k v rest

/-- `Map.prototype.delete`. -/
def mapDelete (k : Nat) : List (Nat × Int) → List (Nat × Int)
  | [] => []
  | (k', v') :: rest => if k' = k then rest else (k', v') :: mapDelete k rest

/-- `isKeyRateLimited` (bot.js 417-429): a key marked more than one hour
ago is deleted from the map and reported available. -/
def isKeyRateLimited (k : Nat) (st : KeyState) (now : Int) : Bool × KeyState :=
  match mapLookup k st.limited with
  | none => (false, st)
  | some t =>
    if 3600000 ≤ now - t then (false, { st with limited := mapDelete k st.limited })
    else (true, st)

/-- `markKeyAsRateLimited` (bot.js 432-435). -/
def markKeyAsRateLimited (k : Nat) (now : Int) (st : KeyState) : KeyState :=
  { st with limited := mapSet k now st.limited }

/-- The scan loop of `findAvailableKey`: at most `remaining` further
attempts, current attempt number `attempts`, over `n` credentials. -/
def findAvailableKeyAux (n start : Nat) (now : Int) :
    Nat → Nat → KeyState → Option (Nat × KeyState)
  | 0, _, _ => none
  | rem + 1, attempts, st =>
    let k := (start + attempts) % n
    let p := isKeyRateLimited k st now
    if p.1 then findAvailableKeyAux n start now rem (attempts + 1) p.2
    else some (k, { p.2 with cur := (k + 1) % n })

/-- `findAvailableKey` (bot.js 438-458) over `n` credentials: the key
index, whether the all-limited warning was emitted, and the new state. -/
def findAvailableKey (n : Nat) (st : KeyState) (now : Int) : Nat × Bool × KeyState :=
  match findAvailableKeyAux n st.cur now n 0 st with
  | some (k, st') => (k, false, st')
  | none => (0, true, { st with cur := 1 % n })

/-! ## Gemini translation (bot.js 398-407, 463-550) -/

/-- An error thrown by the Gemini client: optional HTTP status and the
message text the classification heuristics inspect. -/
structure GeminiError where
  status : Option Nat
  message : JStr
deriving Repr, DecidableEq

/-- `isGeminiRateLimitError` (bot.js 398-401). -/
def isGeminiRateLimitError (e : GeminiError) : Bool :=
  containsSub (js ("429")) e.message ||
  containsSub (js ("too many requests")) (e.message.map Char.toLower) ||
  containsSub (js ("quota")) (e.message.map Char.toLower)

/-- `isGeminiServiceError` (bot.js 403-407). -/
def isGeminiServiceError (e : GeminiError) : Bool :=
  e.status = some 503 || e.status = some 500 ||
  containsSub (js ("overloaded")) (e.message.map Char.toLower) ||
  containsSub (js ("service unavailable")) (e.message.map Char.toLower)

/-- The outcome of one `model.generateContent` attempt: a parsed
`translations` array (whose elements may be JS `null`/`undefined`), or a
thrown error. -/
inductive GeminiOutcome where
  | ok (ts : List (Option JStr))
  | err (e : GeminiError)
deriving Repr, DecidableEq

/-- The error thrown when the translations array has the wrong length. -/
def countError : GeminiError :=
  { status := none, message := js ("Gemini returned unexpected translation count.") }

/-- What `translateChunk` raises: the attempt-cap error or a rethrown
client error. -/
inductive TransErr where
  | attemptsExhausted (maxAttempts : Nat)
  | thrown (e : GeminiError)
deriving Repr, DecidableEq

/-- The key state after `findAvailableKey` has advanced the cursor. -/
def keyStateAfterAcquire (n : Nat) (st : KeyState) (now : Int) : KeyState :=
  (findAvailableKey n st now).2.2

/-- `const failedKeyIndex = (currentKeyIndex - 1 + geminiApiKeys.length) %
geminiApiKeys.length` of the catch branch (bot.js 506). -/
def failedKeyOf (n : Nat) (st : KeyState) (now : Int) : Nat :=
  ((keyStateAfterAcquire n st now).cur + n - 1) % n

/-- The key-state update performed by the rate-limit branch of
`translateChunk`'s catch (bot.js 504-521): mark the key just used as
rate-limited unless it already is (`isKeyRateLimited` is re-run here
exactly as in the source; it is pure, so naming its two uses separately
is sound). -/
def afterRateLimit (n : Nat) (st : KeyState) (now : Int) : KeyState :=
  if (isKeyRateLimited (failedKeyOf n st now) (keyStateAfterAcquire n st now) now).1 then
    (isKeyRateLimited (failedKeyOf n st now) (keyStateAfterAcquire n st now) now).2
  else
    markKeyAsRateLimited (failedKeyOf n st now) now
      (isKeyRateLimited (failedKeyOf n st now) (keyStateAfterAcquire n st now) now).2

/-- `translateChunk` (bot.js 463-532) over `n` credentials, driven by the
oracle of `generateContent` outcomes: checks the
`maxAttempts = n * 3` cap, acquires a credential, and on a rate-limit
error marks the used credential and retries the same chunk; service and
other errors propagate immediately.  `none` means the oracle ran out. -/
def translateChunk (n : Nat) (chunk : List (Option JStr)) (now : Int) :
    List GeminiOutcome → KeyState → Nat →
    Option (Except TransErr (List JStr × List GeminiOutcome × KeyState))
  | oracle, st, attemptCount =>
    if n * 3 ≤ attemptCount then some (.error (.attemptsExhausted (n * 3)))
    else
      match oracle with
      | [] => none
      | o :: rest =>
        let st1 := (findAvailableKey n st now).2.2
        let attempt : Except GeminiError (List JStr) :=
          match o with
          | .ok ts =>
            if ts.length = chunk.length then
              .ok (ts.map (fun t => jsTrim (jsCoalesce t)))
            else .error countError
          | .err e => .error e
        match attempt with
        | .ok out => some (.ok (out, rest, st1))
        | .error e =>
          if isGeminiRateLimitError e then
            translateChunk n chunk now rest (afterRateLimit n st now) (attemptCount + 1)
          else some (.error (.thrown e))

/-- The `for (let i = 0; ...; i += batchSize)` loop of
`translateSummariesWithGemini`, with fuel (`batchSize ≥ 1` in the source,
so `summaries.length` fuel suffices). -/
def transLoop (n bs : Nat) (now : Int) :
    Nat → List (Option JStr) → List GeminiOutcome → KeyState → List JStr →
    Option (Except TransErr (List JStr))
  | _, [], _, _, acc => some (.ok acc)
  | 0, _ :: _, _, _, _ => none
  | fuel + 1, s :: ss, oracle, st, acc =>
    match translateChunk n ((s :: ss).take bs) now oracle st 0 with
    | none => none
    | some (.error e) => some (.error e)
    | some (.ok (ts, oracle', st')) =>
      transLoop n bs now fuel ((s :: ss).drop bs) oracle' st' (acc ++ ts)

/-- `translateSummariesWithGemini` (bot.js 460-550): empty input yields
`[]`; any error raised by a chunk is caught and surfaces as the `null`
fallback sentinel (`some none`), never as an exception.  The outer
`none` means the oracle ran out. -/
def translateSummariesWithGemini (n bs : Nat) (summaries : List (Option JStr))
    (oracle : List GeminiOutcome) (st : KeyState) (now : Int) :
    Option (Option (List JStr)) :=
  if summaries.isEmpty then some (some [])
  else
    match transLoop n bs now summaries.length summaries oracle st [] with
    | none => none
    | some (.ok out) => some (some out)
    | some (.error _) => some none

/-! ## The run orchestrator (bot.js 1068-1196) -/

/-- A DeliveryUnit: `{ id, item }` as pushed into `newItems`. -/
structure Entry where
  id : JStr
  item : Item
deriving Repr, DecidableEq

/-- One fully delivered unit in the run's trace: the webhook index used,
the unit's fingerprint, and the chunk contents sent (recorded only after
every chunk of the unit was accepted). -/
structure Ev where
  sinkIdx : Nat
  id : JStr
  contents : List JStr
deriving Repr, DecidableEq

/-- The observable result of a completed run: the array written by
`writeProcessedIds`, the delivery trace, and the `newItems.length`
reported by the final log line. -/
structure RunResult where
  persisted : List JStr
  trace : List Ev
  count : Nat
deriving Repr, DecidableEq

instance : Inhabited RunResult := ⟨⟨[], [], 0⟩⟩

/-- `Set.prototype.add` on the insertion-ordered JS Set. -/
def setAdd (l : List JStr) (x : JStr) : List JStr :=
  if l.contains x then l else l ++ [x]

/-- Fold a list of ids into a set. -/
def addAll (l : List JStr) (xs : List JStr) : List JStr := xs.foldl setAdd l

/-- `new Set(array)`: insertion-ordered de-duplication. -/
def setFromList (xs : List JStr) : List JStr := addAll [] xs

/-- `` `**[Part ${i+1}/${total}]**\n${chunk}` `` prefixes, added when a
message was split into more than one chunk. -/
def addPartMarkers (total : Nat) : List JStr → Nat → List JStr
  | [], _ => []
  | c :: rest, i =>
    (js ("**[Part ") ++ js (toString (i + 1)) ++ js ("/") ++ js (toString total) ++
      js ("]**") ++ js ("\n") ++ c) :: addPartMarkers total rest (i + 1)

/-- The chunk contents actually passed to `sendDiscordMessage` for one
unit: part markers are added only when there is more than one chunk. -/
def withPartMarkers (chunks : List JStr) : List JStr :=
  if 1 < chunks.length then addPartMarkers chunks.length chunks 0 else chunks

/-- Send every chunk of one unit; `accept` says whether the `k`-th send
of the run (counted across units) succeeds, a failed send aborts.
Returns the updated send counter. -/
def sendChunks (accept : Nat → Bool) : Nat → List JStr → Option Nat
  | k, [] => some k
  | k, _ :: rest => if accept k then sendChunks accept (k + 1) rest else none

/-- The delivery loop of `run` (bot.js 1163-1193): the `i`-th unit goes
to `webhookUrls[i % webhookUrls.length]`, all its chunks are sent, and
only then is its fingerprint added to the in-memory set.  A failed send
aborts the whole run (`none`): nothing is persisted. -/
def deliverLoop (cfg : Config) (accept : Nat → Bool) :
    List Entry → Nat → Nat → List JStr → Option (List JStr × List Ev)
  | [], _, _, processed => some (processed, [])
  | e :: rest, i, sendCnt, processed =>
    let contents := withPartMarkers (formatMessage cfg e.item)
    match sendChunks accept sendCnt contents with
    | none => none
    | some sendCnt' =>
      match deliverLoop cfg accept rest (i + 1) sendCnt' (setAdd processed e.id) with
      | none => none
      | some (fin, evs) =>
        some (fin, { sinkIdx := i % cfg.webhookUrls.length, id := e.id,
                     contents := contents } :: evs)

/-- The trace produced when every send is accepted. -/
def deliverAll (cfg : Config) : List Entry → Nat → List Ev
  | [], _ => []
  | e :: rest, i =>
    { sinkIdx := i % cfg.webhookUrls.length, id := e.id,
      contents := withPartMarkers (formatMessage cfg e.item) } :: deliverAll cfg rest (i + 1)

/-- `translatedSummaries[i] || original`: a missing or empty translation
keeps the original field value. -/
def applyOne (ts : List JStr) (i : Nat) (orig : Option JStr) : Option JStr :=
  match ts.get? i with
  | some s => if s.isEmpty then orig else some s
  | none => orig

/-- Apply translated summaries index-aligned over the ordered units. -/
def applySummaries (ts : List JStr) : List Entry → Nat → List Entry
  | [], _ => []
  | e :: rest, i =>
    { e with item := { e.item with summary := applyOne ts i e.item.summary } } ::
      applySummaries ts rest (i + 1)

/-- Apply translated full tweets: only units with a truthy `fullTweet`
consume the next translated element (`fullTweetIndex` walk). -/
def applyFullTweets (tf : List JStr) : List Entry → Nat → List Entry
  | [], _ => []
  | e :: rest, idx =>
    if jsTruthy e.item.fullTweet then
      { e with item := { e.item with fullTweet := applyOne tf idx e.item.fullTweet } } ::
        applyFullTweets tf rest (idx + 1)
    else e :: applyFullTweets tf rest idx

/-- The translation block of `run` (bot.js 1122-1161), parametrised by
the outcome of `translateSummariesWithGemini` on each batch
(`none` = the `null` fallback sentinel). -/
def applyTranslations (translate : List (Option JStr) → Option (List JStr))
    (ordered : List Entry) : List Entry :=
  if ordered.isEmpty then ordered
  else
    let translatedSummaries := translate (ordered.map (fun e => e.item.summary))
    let fullTweets := (ordered.map (fun e => e.item.fullTweet)).filter jsTruthy
    let translatedFullTweets := if fullTweets.isEmpty then none else translate fullTweets
    let afterSumm :=
      match translatedSummaries with
      | none => ordered
      | some ts => applySummaries ts ordered 0
    match translatedFullTweets with
    | none => afterSumm
    | some tf => applyFullTweets tf afterSumm 0

/-- The `newItems` array of `run` (bot.js 1111-1117): slice to
`maxMessages`, drop items whose fingerprint is already in the loaded
set, pair each survivor with its fingerprint. -/
def newEntriesOf (cfg : Config) (initial : List JStr) (items : List Item) : List Entry :=
  let processed0 := setFromList initial
  ((items.take cfg.maxMessages).filter
      (fun it => !processed0.contains (createMessageId it))).map
    (fun it => { id := createMessageId it, item := it })

/-- The pure core of `run` (bot.js 1068-1196): load + de-duplicate, slice
and filter the scraped items, reverse to oldest-first, translate,
deliver round-robin, and on completion write the full in-memory set.
`none` models the aborted run (a send threw): `writeProcessedIds` is
never reached and the state file keeps its previous content. -/
def runModel (cfg : Config) (initial : List JStr) (items : List Item)
    (translate : List (Option JStr) → Option (List JStr))
    (accept : Nat → Bool) : Option RunResult :=
  let newItems := newEntriesOf cfg initial items
  let ordered := applyTranslations translate newItems.reverse
  match deliverLoop cfg accept ordered 0 0 (setFromList initial) with
  | none => none
  | some (fin, evs) => some { persisted := fin, trace := evs, count := newItems.length }

/-! ## Lemmas about the JS Set model -/

theorem mem_setAdd (l : List JStr) (x y : JStr) : y ∈ setAdd l x ↔ y ∈ l ∨ y = x := by
  simp only [setAdd]
  by_cases h : l.contains x = true
  · rw [if_pos h]
    have hx : x ∈ l := by simpa using h
    constructor
    · exact fun hy => Or.inl hy
    · rintro (hy | rfl)
      · exact hy
      · exact hx
  · rw [if_neg h]
    simp [List.mem_append]

theorem mem_addAll (xs : List JStr) : ∀ l y, y ∈ addAll l xs ↔ y ∈ l ∨ y ∈ xs := by
  induction xs with
  | nil => simp [addAll]
  | cons x xs ih =>
    intro l y
    have h1 : addAll l (x :: xs) = addAll (setAdd l x) xs := rfl
    rw [h1, ih, mem_setAdd]
    simp only [List.mem_cons]
    tauto

theorem mem_setFromList (xs : List JStr) (y : JStr) : y ∈ setFromList xs ↔ y ∈ xs := by
  unfold setFromList
  rw [mem_addAll]
  simp

/-! ## Lemmas about the delivery loop -/

theorem sendChunks_all (accept : Nat → Bool) (hacc : ∀ k, accept k = true) :
    ∀ l k, sendChunks accept k l = some (k + l.length) := by
  intro l
  induction l with
  | nil => intro k; simp [sendChunks]
  | cons c rest ih =>
    intro k
    simp only [sendChunks, hacc k, if_true, ih (k + 1), List.length_cons]
    congr 1
    omega

theorem addAll_cons (l : List JStr) (x : JStr) (xs : List JStr) :
    addAll l (x :: xs) = addAll (setAdd l x) xs := rfl

theorem deliverLoop_some (cfg : Config) (accept : Nat → Bool) :
    ∀ (l : List Entry) (i c : Nat) (p fin : List JStr) (evs : List Ev),
      deliverLoop cfg accept l i c p = some (fin, evs) →
      fin = addAll p (l.map Entry.id) ∧ evs = deliverAll cfg l i := by
  intro l
  induction l with
  | nil =>
    intro i c p fin evs h
    simp only [deliverLoop, Option.some.injEq, Prod.mk.injEq] at h
    exact ⟨h.1.symm, h.2.symm⟩
  | cons e rest ih =>
    intro i c p fin evs h
    simp only [deliverLoop] at h
    split at h
    · exact absurd h (by simp)
    · split at h
      · exact absurd h (by simp)
      · rename_i fin' evs' hd
        simp only [Option.some.injEq, Prod.mk.injEq] at h
        obtain ⟨ih1, ih2⟩ := ih _ _ _ _ _ hd
        constructor
        · rw [← h.1, ih1, List.map_cons, addAll_cons]
        · rw [← h.2, ih2]
          rfl

theorem deliverLoop_all (cfg : Config) (accept : Nat → Bool)
    (hacc : ∀ k, accept k = true) :
    ∀ (l : List Entry) (i c : Nat) (p : List JStr),
      deliverLoop cfg accept l i c p =
        some (addAll p (l.map Entry.id), deliverAll cfg l i) := by
  intro l
  induction l with
  | nil => intro i c p; rfl
  | cons e rest ih =>
    intro i c p
    have hsc := sendChunks_all accept hacc (withPartMarkers (formatMessage cfg e.item)) c
    simp only [deliverLoop, hsc, ih, deliverAll, List.map_cons, addAll_cons]

theorem deliverAll_map_id (cfg : Config) :
    ∀ (l : List Entry) (i : Nat), (deliverAll cfg l i).map Ev.id = l.map Entry.id := by
  intro l
  induction l with
  | nil => intro i; rfl
  | cons e rest ih => intro i; simp only [deliverAll, List.map_cons, ih]

theorem deliverAll_length (cfg : Config) :
    ∀ (l : List Entry) (i : Nat), (deliverAll cfg l i).length = l.length := by
  intro l
  induction l with
  | nil => intro i; rfl
  | cons e rest ih => intro i; simp only [deliverAll, List.length_cons, ih]

theorem deliverAll_sinkIdx (cfg : Config) :
    ∀ (l : List Entry) (i j : Nat) (h : j < (deliverAll cfg l i).length),
      ((deliverAll cfg l i).get ⟨j, h⟩).sinkIdx = (i + j) % cfg.webhookUrls.length := by
  intro l
  induction l with
  | nil => intro i j h; exact absurd h (by simp [deliverAll])
  | cons e rest ih =>
    intro i j h
    cases j with
    | zero => simp [deliverAll]
    | succ j' =>
      have h' : j' < (deliverAll cfg rest (i + 1)).length := by
        simpa [deliverAll] using h
      have hres := ih (i + 1) j' h'
      simp only [deliverAll, List.get_cons_succ, hres]
      congr 1
      omega

set_option maxHeartbeats 1000000 in
theorem deliverAll_mem (cfg : Config) :
    ∀ (l : List Entry) (i : Nat) (ev : Ev), ev ∈ deliverAll cfg l i →
      ∃ e ∈ l, ev.id = e.id ∧ ev.contents = withPartMarkers (formatMessage cfg e.item) := by
  intro l
  induction l with
  | nil => intro i ev h; exact absurd h (by simp [deliverAll])
  | cons e rest ih =>
    intro i ev h
    simp only [deliverAll] at h
    rcases List.mem_cons.mp h with h0 | h1
    · subst h0
      exact ⟨e, List.mem_cons_self e rest, rfl, rfl⟩
    · obtain ⟨e2, he2, h2, h3⟩ := ih (i + 1) ev h1
      exact ⟨e2, List.mem_cons_of_mem e he2, h2, h3⟩

/-! ## Lemmas about the translation application -/

theorem applySummaries_map_id (ts : List JStr) :
    ∀ (l : List Entry) (i : Nat), (applySummaries ts l i).map Entry.id = l.map Entry.id := by
  intro l
  induction l with
  | nil => intro i; rfl
  | cons e rest ih => intro i; simp only [applySummaries, List.map_cons, ih]

theorem applyFullTweets_map_id (tf : List JStr) :
    ∀ (l : List Entry) (i : Nat), (applyFullTweets tf l i).map Entry.id = l.map Entry.id := by
  intro l
  induction l with
  | nil => intro i; rfl
  | cons e rest ih =>
    intro i
    by_cases h : jsTruthy e.item.fullTweet = true <;>
      simp [applyFullTweets, h, ih]

theorem applyTranslations_map_id
    (translate : List (Option JStr) → Option (List JStr)) (ordered : List Entry) :
    (applyTranslations translate ordered).map Entry.id = ordered.map Entry.id := by
  by_cases h : ordered.isEmpty
  · simp [applyTranslations, h]
  · cases hts : translate (ordered.map (fun e => e.item.summary)) with
    | none =>
      by_cases hfe : ((ordered.map (fun e => e.item.fullTweet)).filter jsTruthy).isEmpty
      · simp [applyTranslations, h, hts, hfe]
      · cases htf : translate ((ordered.map (fun e => e.item.fullTweet)).filter jsTruthy) with
        | none => simp [applyTranslations, h, hts, hfe, htf]
        | some tf => simp [applyTranslations, h, hts, hfe, htf, applyFullTweets_map_id]
    | some ts =>
      by_cases hfe : ((ordered.map (fun e => e.item.fullTweet)).filter jsTruthy).isEmpty
      · simp [applyTranslations, h, hts, hfe, applySummaries_map_id]
      · cases htf : translate ((ordered.map (fun e => e.item.fullTweet)).filter jsTruthy) with
        | none => simp [applyTranslations, h, hts, hfe, htf, applySummaries_map_id]
        | some tf =>
          simp [applyTranslations, h, hts, hfe, htf, applyFullTweets_map_id,
            applySummaries_map_id]

theorem applyTranslations_none (ordered : List Entry) :
    applyTranslations (fun _ => none) ordered = ordered := by
  by_cases h : ordered.isEmpty <;> simp [applyTranslations, h]

/-! ## Characterisation of a completed run -/

theorem applyTranslations_length
    (translate : List (Option JStr) → Option (List JStr)) (ordered : List Entry) :
    (applyTranslations translate ordered).length = ordered.length := by
  have h := congrArg List.length (applyTranslations_map_id translate ordered)
  simpa using h

theorem runModel_eq_match (cfg : Config) (initial : List JStr) (items : List Item)
    (translate : List (Option JStr) → Option (List JStr)) (accept : Nat → Bool) :
    runModel cfg initial items translate accept =
      match deliverLoop cfg accept
          (applyTranslations translate (newEntriesOf cfg initial items).reverse) 0 0
          (setFromList initial) with
      | none => none
      | some (fin, evs) =>
        some { persisted := fin, trace := evs,
               count := (newEntriesOf cfg initial items).length } := rfl

theorem runModel_some (cfg : Config) (initial : List JStr) (items : List Item)
    (translate : List (Option JStr) → Option (List JStr)) (accept : Nat → Bool)
    (res : RunResult) (h : runModel cfg initial items translate accept = some res) :
    res.persisted = addAll (setFromList initial)
        (((newEntriesOf cfg initial items).map Entry.id).reverse) ∧
    res.trace = deliverAll cfg
        (applyTranslations translate (newEntriesOf cfg initial items).reverse) 0 ∧
    res.count = (newEntriesOf cfg initial items).length := by
  rw [runModel_eq_match] at h
  split at h
  · exact absurd h (by simp)
  · rename_i fin evs hd
    have hds := deliverLoop_some cfg accept _ _ _ _ _ _ hd
    have hres := Option.some.inj h
    subst hres
    refine ⟨?_, ?_, rfl⟩
    · show fin = addAll (setFromList initial)
        (((newEntriesOf cfg initial items).map Entry.id).reverse)
      rw [hds.1, applyTranslations_map_id, List.map_reverse]
    · exact hds.2

theorem runModel_all (cfg : Config) (initial : List JStr) (items : List Item)
    (translate : List (Option JStr) → Option (List JStr)) (accept : Nat → Bool)
    (hacc : ∀ k, accept k = true) :
    runModel cfg initial items translate accept =
      some { persisted := addAll (setFromList initial)
               (((newEntriesOf cfg initial items).map Entry.id).reverse),
             trace := deliverAll cfg
               (applyTranslations translate (newEntriesOf cfg initial items).reverse) 0,
             count := (newEntriesOf cfg initial items).length } := by
  rw [runModel_eq_match,
    deliverLoop_all cfg accept hacc
      (applyTranslations translate (newEntriesOf cfg initial items).reverse) 0 0
      (setFromList initial)]
  rw [applyTranslations_map_id, List.map_reverse]

/-- C1: a fingerprint is in the persisted set written at the end of a
completed run iff it was in the set loaded at start or is the
fingerprint of a fully delivered record (the trace records a unit only
after every one of its chunks was accepted); moreover a completed run
delivered every new unit, and each trace event carries exactly the full
chunk list of its unit's formatted message.  An aborted run
(`runModel = none`) writes nothing. -/
theorem claim_C1_persistedIffDelivered (cfg : Config) (initial : List JStr)
    (items : List Item) (translate : List (Option JStr) → Option (List JStr))
    (accept : Nat → Bool) (res : RunResult)
    (h : runModel cfg initial items translate accept = some res) :
    (∀ fp, fp ∈ res.persisted ↔ (fp ∈ initial ∨ fp ∈ res.trace.map Ev.id)) ∧
    res.trace.map Ev.id = ((newEntriesOf cfg initial items).map Entry.id).reverse ∧
    (∀ ev ∈ res.trace,
      ∃ e ∈ applyTranslations translate (newEntriesOf cfg initial items).reverse,
        ev.id = e.id ∧ ev.contents = withPartMarkers (formatMessage cfg e.item)) := by
  obtain ⟨hp, ht, _⟩ := runModel_some cfg initial items translate accept res h
  have hmap : res.trace.map Ev.id =
      ((newEntriesOf cfg initial items).map Entry.id).reverse := by
    rw [ht, deliverAll_map_id, applyTranslations_map_id, List.map_reverse]
  refine ⟨?_, hmap, ?_⟩
  · intro fp
    rw [hp, mem_addAll, mem_setFromList, hmap]
  · intro ev hev
    rw [ht] at hev
    exact deliverAll_mem cfg _ 0 ev hev

/-- C9: the persisted set only grows: every id returned by
`loadProcessedIds` at run start is still present in the array written by
`writeProcessedIds` when the run completes. -/
theorem claim_C9_monotone (cfg : Config) (initial : List JStr) (items : List Item)
    (translate : List (Option JStr) → Option (List JStr)) (accept : Nat → Bool)
    (res : RunResult) (h : runModel cfg initial items translate accept = some res) :
    ∀ fp ∈ initial, fp ∈ res.persisted := by
  obtain ⟨hp, _, _⟩ := runModel_some cfg initial items translate accept res h
  intro fp hfp
  rw [hp, mem_addAll, mem_setFromList]
  exact Or.inl hfp

theorem newEntriesOf_empty_two (cfg : Config) (A B : Item) (hmax : 2 ≤ cfg.maxMessages) :
    newEntriesOf cfg [] [B, A] =
      [{ id := createMessageId B, item := B }, { id := createMessageId A, item := A }] := by
  unfold newEntriesOf
  have htake : ([B, A] : List Item).take cfg.maxMessages = [B, A] :=
    List.take_of_length_le (by simp; omega)
  rw [htake]
  rfl

/-- C2: with an empty processed set and the Source Adapter yielding two
new records newest-first `[B, A]`, a completed run delivers `A` then `B`,
via `sinks[0]` then `sinks[1]` (≥ 2 sinks configured), and persists
exactly `[hash A, hash B]`; the run completes whenever the sink accepts
every send; and in any completed run the `j`-th DeliveryUnit was sent to
`sinks[j % len(sinks)]`, for every `translate`/failure state. -/
theorem claim_C2_scenarioRoundRobin :
    (∀ (cfg : Config) (A B : Item) (translate : List (Option JStr) → Option (List JStr))
        (accept : Nat → Bool),
      2 ≤ cfg.webhookUrls.length → 2 ≤ cfg.maxMessages → (∀ k, accept k = true) →
      createMessageId A ≠ createMessageId B →
      ∀ res, runModel cfg [] [B, A] translate accept = some res →
        res.trace.map Ev.id = [createMessageId A, createMessageId B] ∧
        res.trace.map Ev.sinkIdx = [0, 1] ∧
        res.persisted = [createMessageId A, createMessageId B]) ∧
    (∀ (cfg : Config) (initial : List JStr) (items : List Item)
        (translate : List (Option JStr) → Option (List JStr)) (accept : Nat → Bool),
      (∀ k, accept k = true) →
      (runModel cfg initial items translate accept).isSome = true) ∧
    (∀ (cfg : Config) (initial : List JStr) (items : List Item)
        (translate : List (Option JStr) → Option (List JStr)) (accept : Nat → Bool)
        (res : RunResult),
      runModel cfg initial items translate accept = some res →
      ∀ j (hj : j < res.trace.length),
        (res.trace.get ⟨j, hj⟩).sinkIdx = j % cfg.webhookUrls.length) := by
  refine ⟨?_, ?_, ?_⟩
  · intro cfg A B translate accept hweb hmax hacc hne res hres
    obtain ⟨hp, ht, _⟩ := runModel_some _ _ _ _ _ _ hres
    have hnew := newEntriesOf_empty_two cfg A B hmax
    have hids : ((newEntriesOf cfg [] [B, A]).map Entry.id).reverse =
        [createMessageId A, createMessageId B] := by rw [hnew]; simp
    have htid : res.trace.map Ev.id = [createMessageId A, createMessageId B] := by
      rw [ht, deliverAll_map_id, applyTranslations_map_id, List.map_reverse, hids]
    refine ⟨htid, ?_, ?_⟩
    · have hlen2 : (applyTranslations translate
          (newEntriesOf cfg [] [B, A]).reverse).length = 2 := by
        rw [applyTranslations_length, List.length_reverse, hnew]
        simp
      rcases hE : applyTranslations translate (newEntriesOf cfg [] [B, A]).reverse with
        _ | ⟨a, tl⟩
      · rw [hE] at hlen2; simp at hlen2
      · rcases tl with _ | ⟨b, tl2⟩
        · rw [hE] at hlen2; simp at hlen2
        · rcases tl2 with _ | ⟨c, tl3⟩
          · rw [ht, hE]
            show [(0 : Nat) % cfg.webhookUrls.length, 1 % cfg.webhookUrls.length] = [0, 1]
            rw [Nat.zero_mod, Nat.mod_eq_of_lt (by omega)]
          · rw [hE] at hlen2; simp at hlen2
    · have h1 : setAdd [] (createMessageId A) = [createMessageId A] := rfl
      have h2 : setAdd [createMessageId A] (createMessageId B) =
          [createMessageId A, createMessageId B] := by
        unfold setAdd
        rw [if_neg]
        · rfl
        · intro hcon
          have hmem : createMessageId B ∈ [createMessageId A] := by
            simpa using hcon
          simp at hmem
          exact hne hmem.symm
      rw [hp, hids]
      have h0 : setFromList ([] : List JStr) = [] := rfl
      have hA : addAll ([] : List JStr) [createMessageId A, createMessageId B] =
          setAdd (setAdd [] (createMessageId A)) (createMessageId B) := by
        simp [addAll, List.foldl_cons, List.foldl_nil]
      rw [h0, hA, h1, h2]
  · intro cfg initial items translate accept hacc
    rw [runModel_all cfg initial items translate accept hacc]
    rfl
  · intro cfg initial items translate accept res hres j hj
    obtain ⟨_, ht, _⟩ := runModel_some _ _ _ _ _ _ hres
    have hj' : j < (deliverAll cfg (applyTranslations translate
        (newEntriesOf cfg initial items).reverse) 0).length := by
      rw [← ht]; exact hj
    have hidx := deliverAll_sinkIdx cfg
      (applyTranslations translate (newEntriesOf cfg initial items).reverse) 0 j hj'
    rw [Nat.zero_add] at hidx
    calc (res.trace.get ⟨j, hj⟩).sinkIdx
        = ((deliverAll cfg (applyTranslations translate
            (newEntriesOf cfg initial items).reverse) 0).get ⟨j, hj'⟩).sinkIdx := by
          congr 1
          exact List.get_of_eq ht _
      _ = j % cfg.webhookUrls.length := hidx


/-! ## Lemmas about credential rotation and the translation retry loop -/

theorem mapLookup_mapSet (k : Nat) (v : Int) :
    ∀ m, mapLookup k (mapSet k v m) = some v := by
  intro m
  induction m with
  | nil => simp [mapSet, mapLookup]
  | cons p rest ih =>
    obtain ⟨k', v'⟩ := p
    by_cases h : k' = k
    · subst h; simp [mapSet, mapLookup]
    · simp [mapSet, mapLookup, h, ih]

theorem findAvailableKeyAux_some (n : Nat) (hn : 1 ≤ n) (start : Nat) (now : Int) :
    ∀ (rem attempts : Nat) (st : KeyState) (k : Nat) (st' : KeyState),
      findAvailableKeyAux n start now rem attempts st = some (k, st') →
      k < n ∧ st'.cur = (k + 1) % n := by
  intro rem
  induction rem with
  | zero =>
    intro attempts st k st' h
    exact absurd h (by simp [findAvailableKeyAux])
  | succ rem ih =>
    intro attempts st k st' h
    simp only [findAvailableKeyAux] at h
    split at h
    · exact ih _ _ _ _ h
    · simp only [Option.some.injEq, Prod.mk.injEq] at h
      obtain ⟨hk, hst⟩ := h
      subst hk
      exact ⟨Nat.mod_lt _ hn, by rw [← hst]⟩

theorem failedKeyOf_eq_usedKey (n : Nat) (hn : 1 ≤ n) (st : KeyState) (now : Int) :
    failedKeyOf n st now = (findAvailableKey n st now).1 := by
  unfold failedKeyOf keyStateAfterAcquire findAvailableKey
  cases haux : findAvailableKeyAux n st.cur now n 0 st with
  | some pr =>
    obtain ⟨k, st'⟩ := pr
    obtain ⟨hk, hcur⟩ := findAvailableKeyAux_some n hn st.cur now n 0 st k st' haux
    simp only [hcur]
    have h1 : (k + 1) % n + n - 1 = (k + 1) % n + (n - 1) := by omega
    rw [h1, Nat.mod_add_mod]
    have h2 : k + 1 + (n - 1) = k + n := by omega
    rw [h2, Nat.add_mod_right, Nat.mod_eq_of_lt hk]
  | none =>
    simp only
    have h1 : 1 % n + n - 1 = 1 % n + (n - 1) := by omega
    rw [h1, Nat.mod_add_mod]
    have h2 : 1 + (n - 1) = n := by omega
    rw [h2, Nat.mod_self]

theorem isKeyRateLimited_true_state (k : Nat) (st : KeyState) (now : Int)
    (h : (isKeyRateLimited k st now).1 = true) : (isKeyRateLimited k st now).2 = st := by
  unfold isKeyRateLimited at h ⊢
  cases hl : mapLookup k st.limited with
  | none =>
    rw [hl] at h
  | some t =>
    rw [hl] at h
    dsimp only at h
    dsimp only
    by_cases hexp : (3600000 : Int) ≤ now - t
    · rw [if_pos hexp] at h; simp at h
    · rw [if_neg hexp]

theorem marked_after_rateLimit (n : Nat) (hn : 1 ≤ n) (st : KeyState) (now : Int) :
    (isKeyRateLimited ((findAvailableKey n st now).1) (afterRateLimit n st now) now).1 =
      true := by
  have hfk := failedKeyOf_eq_usedKey n hn st now
  unfold afterRateLimit
  rw [hfk]
  cases hp : (isKeyRateLimited ((findAvailableKey n st now).1)
      (keyStateAfterAcquire n st now) now).1
  · rw [if_neg (by simp [hp])]
    unfold isKeyRateLimited markKeyAsRateLimited
    simp only [mapLookup_mapSet]
    rw [if_neg (by omega : ¬ (3600000 : Int) ≤ now - now)]
  · rw [if_pos (by simp [hp]), isKeyRateLimited_true_state _ _ _ hp]
    exact hp

theorem translateChunk_cap (n : Nat) (chunk : List (Option JStr)) (now : Int)
    (oracle : List GeminiOutcome) (st : KeyState) (k : Nat) (hk : n * 3 ≤ k) :
    translateChunk n chunk now oracle st k =
      some (.error (.attemptsExhausted (n * 3))) := by
  rw [translateChunk.eq_def]
  dsimp only
  rw [if_pos hk]

theorem translateChunk_rateLimit_step (n : Nat) (chunk : List (Option JStr)) (now : Int)
    (e : GeminiError) (rest : List GeminiOutcome) (st : KeyState) (k : Nat)
    (hk : k < n * 3) (hRL : isGeminiRateLimitError e = true) :
    translateChunk n chunk now (.err e :: rest) st k =
      translateChunk n chunk now rest (afterRateLimit n st now) (k + 1) := by
  conv_lhs => rw [translateChunk.eq_def]
  dsimp only
  rw [if_neg (by omega : ¬ n * 3 ≤ k), hRL, if_pos rfl]

theorem translateChunk_replicate (n : Nat) (chunk : List (Option JStr)) (now : Int)
    (e : GeminiError) (hRL : isGeminiRateLimitError e = true) :
    ∀ (m k : Nat) (st : KeyState), n * 3 ≤ k + m →
      translateChunk n chunk now (List.replicate m (.err e)) st k =
        some (.error (.attemptsExhausted (n * 3))) := by
  intro m
  induction m with
  | zero =>
    intro k st hcap
    exact translateChunk_cap n chunk now _ st k (by omega)
  | succ m ih =>
    intro k st hcap
    by_cases hk : n * 3 ≤ k
    · exact translateChunk_cap n chunk now _ st k hk
    · rw [List.replicate_succ,
        translateChunk_rateLimit_step n chunk now e _ st k (by omega) hRL]
      exact ih (k + 1) (afterRateLimit n st now) (by omega)

/-- C5: during a translation batch call every rate-limit-classified error
(429 / "too many requests" / "quota") marks the credential just acquired
for that attempt as rate-limited and retries the same chunk with a
freshly acquired credential; the attempt counter for the chunk's batch
call is capped at `credentialCount * 3`, and reaching the cap raises the
fatal `attemptsExhausted` error. -/
theorem claim_C5_translateRetryCap :
    (∀ (n : Nat) (chunk : List (Option JStr)) (now : Int) (e : GeminiError)
        (rest : List GeminiOutcome) (st : KeyState) (k : Nat),
      1 ≤ n → k < n * 3 → isGeminiRateLimitError e = true →
      translateChunk n chunk now (.err e :: rest) st k =
        translateChunk n chunk now rest (afterRateLimit n st now) (k + 1) ∧
      (isKeyRateLimited ((findAvailableKey n st now).1)
          (afterRateLimit n st now) now).1 = true) ∧
    (∀ (n : Nat) (chunk : List (Option JStr)) (now : Int)
        (oracle : List GeminiOutcome) (st : KeyState) (k : Nat), n * 3 ≤ k →
      translateChunk n chunk now oracle st k =
        some (.error (.attemptsExhausted (n * 3)))) ∧
    (∀ (n : Nat) (chunk : List (Option JStr)) (now : Int) (e : GeminiError)
        (st : KeyState),
      1 ≤ n → isGeminiRateLimitError e = true →
      translateChunk n chunk now (List.replicate (n * 3) (.err e)) st 0 =
        some (.error (.attemptsExhausted (n * 3)))) := by
  refine ⟨?_, ?_, ?_⟩
  · intro n chunk now e rest st k hn hk hRL
    exact ⟨translateChunk_rateLimit_step n chunk now e rest st k hk hRL,
      marked_after_rateLimit n hn st now⟩
  · intro n chunk now oracle st k hk
    exact translateChunk_cap n chunk now oracle st k hk
  · intro n chunk now e st hn hRL
    exact translateChunk_replicate n chunk now e hRL (n * 3) 0 st (by omega)

/-- C8: with 3 credentials and the cursor at its initial position, if the
first two credentials are marked rate-limited within the last hour,
`findAvailableKey` returns the third with no warning; once all three are
marked it returns the first anyway, with the warning flag, without
blocking; and a credential marked more than one hour ago is reported
available again (and dropped from the map). -/
theorem claim_C8_credentialRotation (t0 t1 t2 now : Int)
    (h0 : now - t0 < 3600000) (h1 : now - t1 < 3600000) (h2 : now - t2 < 3600000) :
    findAvailableKey 3 ⟨0, [(0, t0), (1, t1)]⟩ now =
      (2, false, ⟨0, [(0, t0), (1, t1)]⟩) ∧
    findAvailableKey 3 ⟨0, [(0, t0), (1, t1), (2, t2)]⟩ now =
      (0, true, ⟨1, [(0, t0), (1, t1), (2, t2)]⟩) ∧
    (∀ (k : Nat) (st : KeyState) (t : Int), mapLookup k st.limited = some t →
      3600000 ≤ now - t →
      isKeyRateLimited k st now =
        (false, { st with limited := mapDelete k st.limited })) := by
  have n0 : ¬ (3600000 : Int) ≤ now - t0 := by omega
  have n1 : ¬ (3600000 : Int) ≤ now - t1 := by omega
  have n2 : ¬ (3600000 : Int) ≤ now - t2 := by omega
  refine ⟨?_, ?_, ?_⟩
  · simp [findAvailableKey, findAvailableKeyAux, isKeyRateLimited, mapLookup, n0, n1]
  · simp [findAvailableKey, findAvailableKeyAux, isKeyRateLimited, mapLookup, n0, n1, n2]
  · intro k st t hl hexp
    unfold isKeyRateLimited
    rw [hl]
    dsimp only
    rw [if_pos hexp]

theorem translateChunk_throw (n : Nat) (chunk : List (Option JStr)) (now : Int)
    (e : GeminiError) (rest : List GeminiOutcome) (st : KeyState)
    (hn : 1 ≤ n) (hNRL : isGeminiRateLimitError e = false) :
    translateChunk n chunk now (.err e :: rest) st 0 =
      some (.error (.thrown e)) := by
  rw [translateChunk.eq_def]
  dsimp only
  rw [if_neg (by omega : ¬ n * 3 ≤ 0), hNRL, if_neg (by simp)]

theorem translateSummaries_fallback (n bs : Nat) (summaries : List (Option JStr))
    (e : GeminiError) (rest : List GeminiOutcome) (st : KeyState) (now : Int)
    (hne : summaries ≠ []) (hn : 1 ≤ n) (hNRL : isGeminiRateLimitError e = false) :
    translateSummariesWithGemini n bs summaries (.err e :: rest) st now = some none := by
  rcases summaries with _ | ⟨s, ss⟩
  · exact absurd rfl hne
  · have hchunk := translateChunk_throw n ((s :: ss).take bs) now e rest st hn hNRL
    simp only [translateSummariesWithGemini, List.isEmpty_cons, Bool.false_eq_true,
      if_false, List.length_cons, transLoop, hchunk]

/-- C6: any error raised while translating a batch (here a
service-unavailable or other non-rate-limit error on the first attempt,
propagated without retry) makes `translateSummariesWithGemini` return
the `null` fallback sentinel instead of throwing; the orchestrator run
with the fallback sentinel still completes, delivers every new unit
(none dropped), each with the chunks of its original untranslated item,
and reports success. -/
theorem claim_C6_translationFallback :
    (∀ (n bs : Nat) (summaries : List (Option JStr)) (e : GeminiError)
        (rest : List GeminiOutcome) (st : KeyState) (now : Int),
      summaries ≠ [] → 1 ≤ n → isGeminiRateLimitError e = false →
      translateSummariesWithGemini n bs summaries (.err e :: rest) st now = some none) ∧
    (∀ (cfg : Config) (initial : List JStr) (items : List Item) (accept : Nat → Bool),
      (∀ k, accept k = true) →
      runModel cfg initial items (fun _ => none) accept =
        some { persisted := addAll (setFromList initial)
                 (((newEntriesOf cfg initial items).map Entry.id).reverse),
               trace := deliverAll cfg (newEntriesOf cfg initial items).reverse 0,
               count := (newEntriesOf cfg initial items).length }) ∧
    (∀ (cfg : Config) (l : List Entry) (i : Nat),
      (deliverAll cfg l i).map Ev.id = l.map Entry.id) ∧
    (∀ (cfg : Config) (l : List Entry) (i : Nat) (ev : Ev), ev ∈ deliverAll cfg l i →
      ∃ e ∈ l, ev.id = e.id ∧
        ev.contents = withPartMarkers (formatMessage cfg e.item)) := by
  refine ⟨?_, ?_, ?_, ?_⟩
  · intro n bs summaries e rest st now hne hn hNRL
    exact translateSummaries_fallback n bs summaries e rest st now hne hn hNRL
  · intro cfg initial items accept hacc
    have h := runModel_all cfg initial items (fun _ => none) accept hacc
    rw [applyTranslations_none] at h
    exact h
  · exact fun cfg l i => deliverAll_map_id cfg l i
  · exact fun cfg l i ev hev => deliverAll_mem cfg l i ev hev

/-! ## Claim C4: the Delivery Engine's send protocol -/

theorem sendDiscordMessage_429 (r : HttpResponse) (hok : respOk r = false)
    (h429 : r.status = 429) (rest : List HttpResponse) :
    sendDiscordMessage (r :: rest) = addDelays 1 (retryAfterMs r + 250)
      (sendDiscordMessage rest) := by
  rw [sendDiscordMessage]
  rw [hok]
  simp only [Bool.false_eq_true, if_false, h429, if_pos rfl]
  cases sendDiscordMessage rest with
  | none => rfl
  | some o =>
    cases o with
    | success ds => simp [addDelays]
    | fatal c b => simp [addDelays]

/-- C4: `send` returns normally on any 2xx response; on a 429 it parses
`retry_after` (defaulting to 1 second when absent), sleeps
`retry_after*1000 + 250` ms and retries indefinitely — any number of
consecutive 429s just prepends that many delays; any other non-2xx
response raises the fatal error carrying status and body; and on the
concrete sequence 429(1), 429(1), 200 it succeeds after exactly the two
1250 ms delays. -/
theorem claim_C4_sendRetryProtocol :
    (∀ (r : HttpResponse) (rest : List HttpResponse), respOk r = true →
      sendDiscordMessage (r :: rest) = some (.success [])) ∧
    (∀ (r : HttpResponse) (rest : List HttpResponse) (k : Nat),
      respOk r = false → r.status = 429 →
      sendDiscordMessage (List.replicate k r ++ rest) =
        addDelays k (retryAfterMs r + 250) (sendDiscordMessage rest)) ∧
    (∀ (r : HttpResponse) (rest : List HttpResponse),
      respOk r = false → r.status ≠ 429 →
      sendDiscordMessage (r :: rest) = some (.fatal r.status r.bodyText)) ∧
    (∀ r : HttpResponse, r.retryAfter = none → retryAfterMs r = 1000) ∧
    sendDiscordMessage
        [{ status := 429, retryAfter := some 1, bodyText := [] },
         { status := 429, retryAfter := some 1, bodyText := [] },
         { status := 200, retryAfter := none, bodyText := [] }] =
      some (.success [1250, 1250]) := by
  refine ⟨?_, ?_, ?_, ?_, ?_⟩
  · intro r rest hok
    rw [sendDiscordMessage, hok, if_pos rfl]
  · intro r rest k hok h429
    induction k with
    | zero =>
      cases h : sendDiscordMessage rest with
      | none => simp [addDelays, h]
      | some o =>
        cases o with
        | success ds => simp [addDelays, h]
        | fatal c b => simp [addDelays, h]
    | succ k ih =>
      rw [List.replicate_succ, List.cons_append, sendDiscordMessage_429 r hok h429, ih]
      cases sendDiscordMessage rest with
      | none => rfl
      | some o =>
        cases o with
        | success ds => simp [addDelays, List.replicate_succ]
        | fatal c b => simp [addDelays]
  · intro r rest hok hne
    rw [sendDiscordMessage, hok]
    simp only [Bool.false_eq_true, if_false]
    rw [if_neg hne]
  · intro r hr
    rw [retryAfterMs, hr]
  · rfl

/-! ## Claims C7 and C10: fingerprint serialization and the `00` sentinel -/

/-- A record with every field present but empty, except `fullTweet`,
which is absent (`undefined`). -/
def itemAbsentFT : Item :=
  { time := some [], sentiment := some [], fullTweet := none,
    summary := some [], tickers := some [], sector := some [] }

/-- The same record with `fullTweet` present and empty. -/
def itemEmptyFT : Item := { itemAbsentFT with fullTweet := some [] }

/-- The same record with `fullTweet` equal to the literal `00`. -/
def itemDoubleZero : Item := { itemAbsentFT with fullTweet := some (js ("00")) }

/-- C7 counterexample: the fingerprint of a record with an absent
`fullTweet` differs from the fingerprint of the same record with
`fullTweet` set to the empty string — JS template interpolation turns
`undefined` into the literal text `undefined`, not into `''`. -/
theorem claim_C7_counterexample :
    createMessageId itemAbsentFT ≠ createMessageId itemEmptyFT := by decide

/-- C7 (amended): the canonical concatenation keeps a fixed `|`-joined
field order, and an absent `tickers` field serializes as the empty
string; but the other fields, when absent, serialize as the literal
string `undefined` through template interpolation, so the fingerprint
with an absent field equals the fingerprint with that field set to the
text `undefined` (not to the empty string). -/
theorem claim_C7_amended (it : Item) :
    createMessageId { it with fullTweet := none } =
      createMessageId { it with fullTweet := some (js ("undefined")) } ∧
    createMessageId { it with sentiment := none } =
      createMessageId { it with sentiment := some (js ("undefined")) } ∧
    createMessageId { it with tickers := none } =
      createMessageId { it with tickers := some [] } ∧
    rawConcat it =
      jsTemplate it.time ++ js ("|") ++ jsTemplate it.sentiment ++ js ("|") ++
      jsTemplate it.fullTweet ++ js ("|") ++ jsTemplate it.summary ++ js ("|") ++
      tickersKey it.tickers ++ js ("|") ++ jsTemplate it.sector := by
  refine ⟨?_, ?_, ?_, rfl⟩
  · unfold createMessageId
    exact congrArg sha256Hex rfl
  · unfold createMessageId
    exact congrArg sha256Hex rfl
  · unfold createMessageId
    exact congrArg sha256Hex rfl

/-- C10: `formatMessage` treats a trimmed `fullTweet` of exactly `00`
the same as an empty or absent one — the full-tweet line degenerates to
the bare `💬 ` prefix and the chunk lists coincide — even though the
fingerprints of the `00` and empty variants differ. -/
theorem claim_C10_doubleZeroSentinel (cfg : Config) (it : Item) :
    formatMessage cfg { it with fullTweet := some (js ("00")) } =
      formatMessage cfg { it with fullTweet := some [] } ∧
    formatMessage cfg { it with fullTweet := some (js ("00")) } =
      formatMessage cfg { it with fullTweet := none } ∧
    js ("💬 ") ∈ formatLines cfg { it with fullTweet := some (js ("00")) } ∧
    createMessageId itemDoubleZero ≠ createMessageId itemEmptyFT := by
  have h1 : fullTweetShown (some (js ("00"))) = [] := by decide
  have h2 : fullTweetShown (some []) = [] := by decide
  have h3 : fullTweetShown none = [] := by decide
  refine ⟨?_, ?_, ?_, by decide⟩
  · simp only [formatMessage, finalMessage, formatLines, h1, h2]
  · simp only [formatMessage, finalMessage, formatLines, h1, h3]
  · simp [formatLines, h1]

/-! ## Claim C3: the message splitter -/

theorem jsLastIndexOf_spec (ch : Char) (s : JStr) :
    ∀ (k i : Nat), jsLastIndexOf ch s k = some i → s.get? i = some ch ∧ i ≤ k := by
  intro k
  induction k with
  | zero =>
    intro i h
    unfold jsLastIndexOf at h
    by_cases h0 : s.get? 0 = some ch
    · rw [if_pos h0] at h
      cases h
      exact ⟨h0, Nat.le_refl 0⟩
    · rw [if_neg h0] at h
      cases h
  | succ k ih =>
    intro i h
    unfold jsLastIndexOf at h
    by_cases h0 : s.get? (k + 1) = some ch
    · rw [if_pos h0] at h
      cases h
      exact ⟨h0, Nat.le_refl _⟩
    · rw [if_neg h0] at h
      obtain ⟨ha, hb⟩ := ih i h
      exact ⟨ha, Nat.le_trans hb (Nat.le_succ k)⟩

theorem jsLastIndexOf_maximal (ch : Char) (s : JStr) :
    ∀ (k i : Nat), jsLastIndexOf ch s k = some i →
      ∀ j, i < j → j ≤ k → s.get? j ≠ some ch := by
  intro k
  induction k with
  | zero =>
    intro i h j hij hj
    obtain ⟨_, hi⟩ := jsLastIndexOf_spec ch s 0 i h
    omega
  | succ k ih =>
    intro i h j hij hj
    unfold jsLastIndexOf at h
    by_cases h0 : s.get? (k + 1) = some ch
    · rw [if_pos h0] at h
      cases h
      omega
    · rw [if_neg h0] at h
      rcases Nat.lt_or_ge j (k + 1) with hlt | hge
      · exact ih i h j hij (by omega)
      · have hje : j = k + 1 := by omega
        rw [hje]
        exact h0

theorem jsLastIndexOf_none (ch : Char) (s : JStr) :
    ∀ k, jsLastIndexOf ch s k = none → ∀ j, j ≤ k → s.get? j ≠ some ch := by
  intro k
  induction k with
  | zero =>
    intro h j hj
    unfold jsLastIndexOf at h
    by_cases h0 : s.get? 0 = some ch
    · rw [if_pos h0] at h; cases h
    · have hj0 : j = 0 := by omega
      rw [hj0]
      exact h0
  | succ k ih =>
    intro h j hj
    unfold jsLastIndexOf at h
    by_cases h0 : s.get? (k + 1) = some ch
    · rw [if_pos h0] at h; cases h
    · rw [if_neg h0] at h
      rcases Nat.lt_or_ge j (k + 1) with hlt | hge
      · exact ih h j (by omega)
      · have hje : j = k + 1 := by omega
        rw [hje]
        exact h0

theorem jsLastIndexOf_complete (ch : Char) (s : JStr) :
    ∀ (k i : Nat), i ≤ k → s.get? i = some ch →
      ∃ r, jsLastIndexOf ch s k = some r ∧ i ≤ r := by
  intro k
  induction k with
  | zero =>
    intro i hik hi
    have hi0 : i = 0 := by omega
    subst hi0
    refine ⟨0, ?_, Nat.le_refl 0⟩
    unfold jsLastIndexOf
    rw [if_pos hi]
  | succ k ih =>
    intro i hik hi
    by_cases h0 : s.get? (k + 1) = some ch
    · refine ⟨k + 1, ?_, hik⟩
      unfold jsLastIndexOf
      rw [if_pos h0]
    · have hik' : i ≤ k := by
        rcases Nat.lt_or_ge i (k + 1) with hlt | hge
        · omega
        · have : i = k + 1 := by omega
          subst this
          exact absurd hi h0
      obtain ⟨r, hr, hir⟩ := ih i hik' hi
      refine ⟨r, ?_, hir⟩
      unfold jsLastIndexOf
      rw [if_neg h0]
      exact hr

theorem jsTrimRight_eq_rdropWhile (s : JStr) :
    jsTrimRight s = List.rdropWhile isJsWs s := rfl

theorem length_dropWhile_le' (p : Char → Bool) (l : JStr) :
    (l.dropWhile p).length ≤ l.length :=
  (List.dropWhile_suffix p).sublist.length_le

theorem jsTrim_length_le (s : JStr) : (jsTrim s).length ≤ s.length := by
  unfold jsTrim jsTrimLeft jsTrimRight
  calc ((s.reverse.dropWhile isJsWs).reverse.dropWhile isJsWs).length
      ≤ (s.reverse.dropWhile isJsWs).reverse.length := length_dropWhile_le' _ _
    _ = (s.reverse.dropWhile isJsWs).length := List.length_reverse _
    _ ≤ s.reverse.length := length_dropWhile_le' _ _
    _ = s.length := List.length_reverse _

theorem jsTrim_append_ws (s : JStr) (c : Char) (hc : isJsWs c = true) :
    jsTrim (s ++ [c]) = jsTrim s := by
  unfold jsTrim jsTrimLeft
  rw [jsTrimRight_eq_rdropWhile, jsTrimRight_eq_rdropWhile,
    List.rdropWhile_concat_pos _ _ _ hc]

theorem jsTrim_idem (s : JStr) : jsTrim (jsTrim s) = jsTrim s := by
  unfold jsTrim jsTrimLeft
  rw [jsTrimRight_eq_rdropWhile, jsTrimRight_eq_rdropWhile]
  have hA : List.rdropWhile isJsWs ((List.rdropWhile isJsWs s).dropWhile isJsWs) =
      (List.rdropWhile isJsWs s).dropWhile isJsWs := by
    rw [List.rdropWhile_eq_self_iff]
    intro hl
    have hy : List.rdropWhile isJsWs s ≠ [] := by
      intro hy
      rw [hy] at hl
      exact hl rfl
    obtain ⟨t, ht⟩ := List.dropWhile_suffix
      (l := List.rdropWhile isJsWs s) (p := isJsWs)
    have hq : ((List.rdropWhile isJsWs s).dropWhile isJsWs).getLast? =
        (List.rdropWhile isJsWs s).getLast? := by
      conv_rhs => rw [← ht]
      exact (List.getLast?_append_of_ne_nil t hl).symm
    rw [List.getLast?_eq_getLast_of_ne_nil hl,
      List.getLast?_eq_getLast_of_ne_nil hy] at hq
    rw [Option.some.inj hq]
    exact List.rdropWhile_last_not _ _ hy
  rw [hA, List.dropWhile_idempotent]

theorem pickSpace_chunk_bound (maxLength : Nat) (remaining : JStr) :
    (jsTrim (remaining.take (pickSpace maxLength remaining))).length ≤ maxLength := by
  unfold pickSpace
  cases hsp : jsLastIndexOf ' ' remaining maxLength with
  | some j =>
    dsimp only
    by_cases hth : 7 * maxLength < 10 * j
    · rw [if_pos hth]
      obtain ⟨hgj, hjle⟩ := jsLastIndexOf_spec _ _ _ _ hsp
      have htake : remaining.take (j + 1) = remaining.take j ++ [' '] := by
        rw [List.take_succ, ← List.get?_eq_getElem?, hgj]
        rfl
      rw [htake, jsTrim_append_ws _ _ (by decide)]
      calc (jsTrim (remaining.take j)).length
          ≤ (remaining.take j).length := jsTrim_length_le _
        _ ≤ j := List.length_take_le j remaining
        _ ≤ maxLength := hjle
    · rw [if_neg hth]
      calc (jsTrim (remaining.take maxLength)).length
          ≤ (remaining.take maxLength).length := jsTrim_length_le _
        _ ≤ maxLength := List.length_take_le maxLength remaining
  | none =>
    dsimp only
    calc (jsTrim (remaining.take maxLength)).length
        ≤ (remaining.take maxLength).length := jsTrim_length_le _
      _ ≤ maxLength := List.length_take_le maxLength remaining

theorem pick_chunk_bound (maxLength : Nat) (remaining : JStr) :
    (jsTrim (remaining.take (pickSplitIndex maxLength remaining))).length ≤ maxLength := by
  unfold pickSplitIndex
  cases hnl : jsLastIndexOf '\n' remaining maxLength with
  | some i =>
    dsimp only
    by_cases hth : 7 * maxLength < 10 * i
    · rw [if_pos hth]
      obtain ⟨hgi, hile⟩ := jsLastIndexOf_spec _ _ _ _ hnl
      have htake : remaining.take (i + 1) = remaining.take i ++ ['\n'] := by
        rw [List.take_succ, ← List.get?_eq_getElem?, hgi]
        rfl
      rw [htake, jsTrim_append_ws _ _ (by decide)]
      calc (jsTrim (remaining.take i)).length
          ≤ (remaining.take i).length := jsTrim_length_le _
        _ ≤ i := List.length_take_le i remaining
        _ ≤ maxLength := hile
    · rw [if_neg hth]
      exact pickSpace_chunk_bound maxLength remaining
  | none =>
    dsimp only
    exact pickSpace_chunk_bound maxLength remaining

theorem splitLoop_bound (maxLength : Nat) :
    ∀ (fuel : Nat) (remaining c : JStr),
      c ∈ splitLoop maxLength fuel remaining → c.length ≤ maxLength := by
  intro fuel
  induction fuel with
  | zero =>
    intro remaining c h
    exact absurd h (by simp [splitLoop])
  | succ fuel ih =>
    intro remaining c h
    simp only [splitLoop] at h
    by_cases he : remaining.isEmpty
    · rw [if_pos he] at h
      exact absurd h (by simp)
    · rw [if_neg he] at h
      by_cases hle : remaining.length ≤ maxLength
      · rw [if_pos hle] at h
        rcases List.mem_singleton.mp h with rfl
        exact hle
      · rw [if_neg hle] at h
        rcases List.mem_cons.mp h with rfl | htl
        · exact pick_chunk_bound maxLength remaining
        · exact ih _ c htl

theorem splitIntoChunks_bound (maxLength : Nat) (text c : JStr)
    (h : c ∈ splitIntoChunks text maxLength) : c.length ≤ maxLength := by
  unfold splitIntoChunks at h
  by_cases hle : text.length ≤ maxLength
  · rw [if_pos hle] at h
    rcases List.mem_singleton.mp h with rfl
    exact hle
  · rw [if_neg hle] at h
    exact splitLoop_bound maxLength _ _ c h

theorem splitLoop_trimmed (maxLength : Nat) :
    ∀ (fuel : Nat) (r c : JStr),
      c ∈ splitLoop maxLength fuel (jsTrim r) → jsTrim c = c := by
  intro fuel
  induction fuel with
  | zero =>
    intro r c h
    exact absurd h (by simp [splitLoop])
  | succ fuel ih =>
    intro r c h
    simp only [splitLoop] at h
    by_cases he : (jsTrim r).isEmpty
    · rw [if_pos he] at h
      exact absurd h (by simp)
    · rw [if_neg he] at h
      by_cases hle : (jsTrim r).length ≤ maxLength
      · rw [if_pos hle] at h
        rcases List.mem_singleton.mp h with rfl
        exact jsTrim_idem r
      · rw [if_neg hle] at h
        rcases List.mem_cons.mp h with rfl | htl
        · exact jsTrim_idem _
        · exact ih _ c htl

theorem splitIntoChunks_trimmed (maxLength : Nat) (text : JStr)
    (hlen : maxLength < text.length) (c : JStr)
    (h : c ∈ splitIntoChunks text maxLength) : jsTrim c = c := by
  unfold splitIntoChunks at h
  rw [if_neg (by omega)] at h
  obtain ⟨f, hf⟩ : ∃ f, text.length = f + 1 := ⟨text.length - 1, by omega⟩
  rw [hf] at h
  simp only [splitLoop] at h
  have hne : text.isEmpty = false := by
    cases text with
    | nil => simp at hf
    | cons a t => rfl
  rw [if_neg (by simp [hne])] at h
  rw [if_neg (by omega)] at h
  rcases List.mem_cons.mp h with rfl | htl
  · exact jsTrim_idem _
  · exact splitLoop_trimmed maxLength f _ c htl

theorem splitIntoChunks_head (maxLength : Nat) (text : JStr)
    (hlen : maxLength < text.length) :
    (splitIntoChunks text maxLength).head? =
      some (jsTrim (text.take (pickSplitIndex maxLength text))) := by
  unfold splitIntoChunks
  rw [if_neg (by omega)]
  obtain ⟨f, hf⟩ : ∃ f, text.length = f + 1 := ⟨text.length - 1, by omega⟩
  rw [hf]
  simp only [splitLoop]
  have hne : text.isEmpty = false := by
    cases text with
    | nil => simp at hf
    | cons a t => rfl
  rw [if_neg (by simp [hne])]
  rw [if_neg (by omega)]
  rfl

theorem pickSplitIndex_newline (maxLength : Nat) (text : JStr) (i : Nat)
    (hget : text.get? i = some ('\n')) (hile : i ≤ maxLength)
    (hth : 7 * maxLength < 10 * i)
    (hmax : ∀ j, j ≤ maxLength → i < j → text.get? j ≠ some ('\n')) :
    pickSplitIndex maxLength text = i + 1 := by
  obtain ⟨r, hr, hir⟩ := jsLastIndexOf_complete ('\n') text maxLength i hile hget
  obtain ⟨hgr, hrle⟩ := jsLastIndexOf_spec _ _ _ _ hr
  have hri : r = i := by
    rcases Nat.eq_or_lt_of_le hir with he | hlt
    · omega
    · exact absurd hgr (hmax r hrle hlt)
  subst hri
  unfold pickSplitIndex
  rw [hr]
  dsimp only
  rw [if_pos hth]

theorem pickSplitIndex_noNewline (maxLength : Nat) (text : JStr)
    (hno : ∀ i, i ≤ maxLength → text.get? i = some ('\n') → 10 * i ≤ 7 * maxLength) :
    pickSplitIndex maxLength text = pickSpace maxLength text := by
  unfold pickSplitIndex
  cases hnl : jsLastIndexOf '\n' text maxLength with
  | some r =>
    obtain ⟨hgr, hrle⟩ := jsLastIndexOf_spec _ _ _ _ hnl
    have := hno r hrle hgr
    dsimp only
    rw [if_neg (by omega)]
  | none => rfl

theorem pickSpace_found (maxLength : Nat) (text : JStr) (j : Nat)
    (hget : text.get? j = some (' ')) (hjle : j ≤ maxLength)
    (hth : 7 * maxLength < 10 * j)
    (hmax : ∀ j2, j2 ≤ maxLength → j < j2 → text.get? j2 ≠ some (' ')) :
    pickSpace maxLength text = j + 1 := by
  obtain ⟨r, hr, hjr⟩ := jsLastIndexOf_complete (' ') text maxLength j hjle hget
  obtain ⟨hgr, hrle⟩ := jsLastIndexOf_spec _ _ _ _ hr
  have hrj : r = j := by
    rcases Nat.eq_or_lt_of_le hjr with he | hlt
    · omega
    · exact absurd hgr (hmax r hrle hlt)
  subst hrj
  unfold pickSpace
  rw [hr]
  dsimp only
  rw [if_pos hth]

theorem pickSpace_notFound (maxLength : Nat) (text : JStr)
    (hno : ∀ j, j ≤ maxLength → text.get? j = some (' ') → 10 * j ≤ 7 * maxLength) :
    pickSpace maxLength text = maxLength := by
  unfold pickSpace
  cases hsp : jsLastIndexOf ' ' text maxLength with
  | some r =>
    obtain ⟨hgr, hrle⟩ := jsLastIndexOf_spec _ _ _ _ hsp
    have := hno r hrle hgr
    dsimp only
    rw [if_neg (by omega)]
  | none => rfl

/-- C3: every chunk `formatMessage` emits (and, generally, every chunk
`splitIntoChunks` returns at the 1990 ceiling) has length at most 1990;
when splitting occurred every chunk is trimmed of leading and trailing
whitespace; and the split point of the first chunk is the last newline
at or before index 1990 when it lies past 70% of the ceiling
(`1990 * 0.7` is exactly the double `1393`), else the last space past
70%, else a hard split exactly at the ceiling. -/
theorem claim_C3_chunkCeiling :
    (∀ (cfg : Config) (item : Item) (c : JStr),
      c ∈ formatMessage cfg item → c.length ≤ 1990) ∧
    (∀ (text c : JStr), c ∈ splitIntoChunks text 1990 → c.length ≤ 1990) ∧
    (∀ (text : JStr), 1990 < text.length →
      ∀ c ∈ splitIntoChunks text 1990, jsTrim c = c) ∧
    (∀ (text : JStr) (i : Nat), 1990 < text.length →
      text.get? i = some ('\n') → i ≤ 1990 → 1393 < i →
      (∀ j, j ≤ 1990 → i < j → text.get? j ≠ some ('\n')) →
      (splitIntoChunks text 1990).head? = some (jsTrim (text.take (i + 1)))) ∧
    (∀ (text : JStr) (j : Nat), 1990 < text.length →
      (∀ i, i ≤ 1990 → text.get? i = some ('\n') → i ≤ 1393) →
      text.get? j = some (' ') → j ≤ 1990 → 1393 < j →
      (∀ j2, j2 ≤ 1990 → j < j2 → text.get? j2 ≠ some (' ')) →
      (splitIntoChunks text 1990).head? = some (jsTrim (text.take (j + 1)))) ∧
    (∀ (text : JStr), 1990 < text.length →
      (∀ i, i ≤ 1990 → text.get? i = some ('\n') → i ≤ 1393) →
      (∀ j, j ≤ 1990 → text.get? j = some (' ') → j ≤ 1393) →
      (splitIntoChunks text 1990).head? = some (jsTrim (text.take 1990))) := by
  refine ⟨?_, ?_, ?_, ?_, ?_, ?_⟩
  · intro cfg item c h
    exact splitIntoChunks_bound 1990 _ c h
  · intro text c h
    exact splitIntoChunks_bound 1990 text c h
  · intro text hlen c h
    exact splitIntoChunks_trimmed 1990 text hlen c h
  · intro text i hlen hget hile hth hmax
    rw [splitIntoChunks_head 1990 text hlen,
      pickSplitIndex_newline 1990 text i hget hile (by omega) hmax]
  · intro text j hlen hnonl hget hjle hth hmax
    rw [splitIntoChunks_head 1990 text hlen,
      pickSplitIndex_noNewline 1990 text
        (fun i hi hgi => by have := hnonl i hi hgi; omega),
      pickSpace_found 1990 text j hget hjle (by omega) hmax]
  · intro text hlen hnonl hnosp
    rw [splitIntoChunks_head 1990 text hlen,
      pickSplitIndex_noNewline 1990 text
        (fun i hi hgi => by have := hnonl i hi hgi; omega),
      pickSpace_notFound 1990 text
        (fun j hj hgj => by have := hnosp j hj hgj; omega)]

/-! ## Concrete witnesses -/

/-- A concrete scraped record used by the witnesses. -/
def wItemA : Item :=
  { time := some (js ("9:00 AM")), sentiment := some (js ("Bullish")),
    fullTweet := some (js ("tweet a")), summary := some (js ("sum a")),
    tickers := some [js ("NWSA")], sector := some (js ("Media")) }

/-- A second record differing from `wItemA` only in its summary. -/
def wItemB : Item := { wItemA with summary := some (js ("sum b")) }

/-- A concrete configuration with three webhooks. -/
def wCfg : Config :=
  { siteUrl := js ("https://site.example/trump-dashboard"), tag := js ("@news"),
    webhookUrls := [js ("wh1"), js ("wh2"), js ("wh3")], maxMessages := 10 }

/-- A completed one-item run used by the C1/C9 witnesses. -/
def wRun : Option RunResult :=
  runModel wCfg [js ("oldid")] [wItemA] (fun _ => none) (fun _ => true)

/-- The two-item scenario run used by the C2 witness. -/
def wRun2 : Option RunResult :=
  runModel wCfg [] [wItemB, wItemA] (fun _ => none) (fun _ => true)

set_option maxRecDepth 100000 in
set_option maxHeartbeats 2000000 in
theorem claim_C1_witness :
    (js ("oldid")) ∈ (wRun.getD default).persisted ↔
      ((js ("oldid")) ∈ [js ("oldid")] ∨
        (js ("oldid")) ∈ ((wRun.getD default).trace.map Ev.id)) := by
  have h : wRun = some (wRun.getD default) := rfl
  exact (claim_C1_persistedIffDelivered wCfg [js ("oldid")] [wItemA]
    (fun _ => none) (fun _ => true) (wRun.getD default) h).1 (js ("oldid"))

set_option maxRecDepth 100000 in
set_option maxHeartbeats 2000000 in
theorem claim_C9_witness : (js ("oldid")) ∈ (wRun.getD default).persisted := by
  have h : wRun = some (wRun.getD default) := rfl
  exact claim_C9_monotone wCfg [js ("oldid")] [wItemA]
    (fun _ => none) (fun _ => true) (wRun.getD default) h (js ("oldid")) (by simp)

set_option maxRecDepth 100000 in
set_option maxHeartbeats 4000000 in
theorem claim_C2_witness :
    (wRun2.getD default).trace.map Ev.id =
      [createMessageId wItemA, createMessageId wItemB] ∧
    (wRun2.getD default).trace.map Ev.sinkIdx = [0, 1] ∧
    (wRun2.getD default).persisted =
      [createMessageId wItemA, createMessageId wItemB] := by
  have h : wRun2 = some (wRun2.getD default) := rfl
  exact (claim_C2_scenarioRoundRobin).1 wCfg wItemA wItemB (fun _ => none)
    (fun _ => true) (by decide) (by decide) (fun k => rfl) (by decide)
    (wRun2.getD default) h

/-- A long text with one newline at index 1500, used by the C3 witness. -/
def wText : JStr := List.replicate 1500 'a' ++ '\n' :: List.replicate 600 'b'

theorem wText_length : 1990 < wText.length := by
  unfold wText
  rw [List.length_append, List.length_cons, List.length_replicate,
    List.length_replicate]
  omega

theorem wText_get_nl : wText.get? 1500 = some ('\n') := by
  unfold wText
  rw [List.get?_append_right (by rw [List.length_replicate])]
  rw [List.length_replicate, Nat.sub_self]
  rfl

theorem wText_no_nl_after : ∀ j, j ≤ 1990 → 1500 < j → wText.get? j ≠ some ('\n') := by
  intro j hj hlt
  unfold wText
  rw [List.get?_append_right (by rw [List.length_replicate]; omega)]
  obtain ⟨m, hm⟩ : ∃ m, j - (List.replicate 1500 'a').length = m + 1 :=
    ⟨j - 1501, by rw [List.length_replicate]; omega⟩
  rw [hm]
  show (List.replicate 600 'b').get? m ≠ some ('\n')
  cases hmr : (List.replicate 600 'b').get? m with
  | none => intro hcon; cases hcon
  | some c =>
    have hc : c = 'b' := List.eq_of_mem_replicate (List.get?_mem hmr)
    subst hc
    decide

theorem claim_C3_witness :
    (splitIntoChunks wText 1990).head? = some (jsTrim (wText.take 1501)) ∧
    (jsTrim (wText.take 1501)).length ≤ 1990 ∧
    jsTrim (jsTrim (wText.take 1501)) = jsTrim (wText.take 1501) := by
  have h1 : (splitIntoChunks wText 1990).head? =
      some (jsTrim (wText.take (1500 + 1))) :=
    (claim_C3_chunkCeiling).2.2.2.1 wText 1500 wText_length wText_get_nl (by omega)
      (by omega) wText_no_nl_after
  have hmem : jsTrim (wText.take 1501) ∈ splitIntoChunks wText 1990 :=
    List.mem_of_mem_head? (by rw [h1]; rfl)
  refine ⟨h1, ?_, ?_⟩
  · exact (claim_C3_chunkCeiling).2.1 wText _ hmem
  · exact (claim_C3_chunkCeiling).2.2.1 wText wText_length _ hmem

theorem claim_C4_witness :
    sendDiscordMessage [{ status := 200, retryAfter := none, bodyText := [] }] =
      some (.success []) ∧
    sendDiscordMessage
        (List.replicate 2 { status := 429, retryAfter := some 1, bodyText := [] } ++
          [{ status := 200, retryAfter := none, bodyText := [] }]) =
      addDelays 2 1250
        (sendDiscordMessage [{ status := 200, retryAfter := none, bodyText := [] }]) ∧
    sendDiscordMessage [{ status := 500, retryAfter := none, bodyText := js ("oops") }] =
      some (.fatal 500 (js ("oops"))) ∧
    retryAfterMs { status := 429, retryAfter := none, bodyText := [] } = 1000 := by
  refine ⟨?_, ?_, ?_, ?_⟩
  · exact claim_C4_sendRetryProtocol.1 _ [] (by decide)
  · exact claim_C4_sendRetryProtocol.2.1 _ _ 2 (by decide) (by decide)
  · exact claim_C4_sendRetryProtocol.2.2.1 _ [] (by decide) (by decide)
  · exact claim_C4_sendRetryProtocol.2.2.2.1 _ rfl

/-- A rate-limit-classified Gemini error. -/
def wErr : GeminiError := { status := none, message := js ("quota") }

/-- A service-unavailable Gemini error (not rate-limit-classified). -/
def wSvcErr : GeminiError := { status := some 503, message := js ("Service Unavailable") }

theorem claim_C5_witness :
    translateChunk 1 [] 0 (List.replicate 3 (.err wErr)) ⟨0, []⟩ 0 =
      some (.error (.attemptsExhausted 3)) := by
  exact claim_C5_translateRetryCap.2.2 1 [] 0 wErr ⟨0, []⟩ (by decide) (by decide)

theorem claim_C6_witness :
    translateSummariesWithGemini 1 12 [some (js ("hello"))] [.err wSvcErr] ⟨0, []⟩ 0 =
      some none ∧
    runModel wCfg [] [wItemA] (fun _ => none) (fun _ => true) =
      some { persisted := addAll (setFromList [])
               (((newEntriesOf wCfg [] [wItemA]).map Entry.id).reverse),
             trace := deliverAll wCfg (newEntriesOf wCfg [] [wItemA]).reverse 0,
             count := (newEntriesOf wCfg [] [wItemA]).length } := by
  refine ⟨?_, ?_⟩
  · exact claim_C6_translationFallback.1 1 12 [some (js ("hello"))] wSvcErr []
      ⟨0, []⟩ 0 (by simp) (by decide) (by decide)
  · exact claim_C6_translationFallback.2.1 wCfg [] [wItemA] (fun _ => true)
      (fun k => rfl)

theorem claim_C8_witness :
    findAvailableKey 3 ⟨0, [(0, 1000), (1, 2000)]⟩ 3000 =
      (2, false, ⟨0, [(0, 1000), (1, 2000)]⟩) ∧
    findAvailableKey 3 ⟨0, [(0, 1000), (1, 2000), (2, 2500)]⟩ 3000 =
      (0, true, ⟨1, [(0, 1000), (1, 2000), (2, 2500)]⟩) := by
  have h := claim_C8_credentialRotation 1000 2000 2500 3000
    (by decide) (by decide) (by decide)
  exact ⟨h.1, h.2.1⟩
